import Mathlib

/-!
Verification of the orchestration and retry core of the repository
(ScenarioOrchestrator in src/orchestrator/orchestrator.ts, the retry runner
runWithRetries in src/utils/rerunHandler.ts, and the generic retry wrapper
withRetry in src/utils/safeActions.ts).  Each definition below is a shallow
embedding of the corresponding source function: loops become fuel-indexed
structural recursion where the fuel equals the number of loop iterations the
source performs, asynchronous external calls (test generation, test
execution, the awaited race against the scenario timeout) become explicit
function parameters returning Except values, and wall-clock durations and
logging side effects are not modelled.
-/

/-- Boolean test that the first list is an initial segment of the second
(used to model the anchored part of regex matching in the placeholder
scanner). -/
def startsWith : List Char → List Char → Bool
  | [], _ => true
  | _ :: _, [] => false
  | p :: ps, c :: cs => p == c && startsWith ps cs

/-- Boolean substring test on character lists (used only to state that a
given text does not occur inside an error message). -/
def containsSub (needle : List Char) : List Char → Bool
  | [] => startsWith needle []
  | c :: cs => startsWith needle (c :: cs) || containsSub needle cs

/-- Embedding of the chunking loop of `main` (orchestrator.ts lines 254-257):
`for (let i = 0; i < n; i += concurrency) chunks.push(slice(i, i + concurrency))`.
The fuel argument makes the recursion structural; `chunksOf` below supplies
fuel equal to the list length, which is enough because every iteration with a
nonempty remainder consumes at least one element when `c ≥ 1` (for `c = 0`
the source loop would not terminate, and none of the claims concern it). -/
def chunksOfFuel (c : Nat) : Nat → List α → List (List α)
  | _, [] => []
  | 0, _ :: _ => []
  | fuel + 1, x :: xs => (x :: xs).take c :: chunksOfFuel c fuel (xs.drop (c - 1))

/-- The chunk partition computed by the orchestrator for a scenario list. -/
def chunksOf (c : Nat) (xs : List α) : List (List α) :=
  chunksOfFuel c xs.length xs

/-- The character class `[A-Z0-9_]` of the placeholder regex
`/\$\{CONFIG\.([A-Z0-9_]+)\}/g` in `interpolateConfigPlaceholders`. -/
def isKeyChar (c : Char) : Bool :=
  c.isUpper || c.isDigit || c == '_'

/-- The fixed anchored text `$\x7bCONFIG.` that every placeholder match must
begin with. -/
def placeholderHead : List Char :=
  ['$', '\x7b', 'C', 'O', 'N', 'F', 'I', 'G', '.']

/-- Embedding of the `OrchestrationError` class (message plus optional
details payload; the source allows an arbitrary details value, the program
only ever supplies strings). -/
structure OrchestrationError where
  message : String
  details : Option String
  deriving DecidableEq

/-- The error thrown by the placeholder interpolation callback when a key is
not present in the configuration map: message names the key, details list the
valid keys (orchestrator.ts lines 135-140). -/
def unknownKeyError (key : String) (cfg : List (String × String)) : OrchestrationError :=
  ⟨"Unknown configuration key: " ++ key,
   some ("Available keys: " ++ String.intercalate ", " (cfg.map Prod.fst))⟩

/-- Lookup in the flat configuration map, modelling `key in CONFIG` followed
by `CONFIG[key] || ""` (all configuration values are strings, so the `|| ""`
fallback maps the empty string to itself). -/
def lookupConfig (cfg : List (String × String)) (key : String) : Option String :=
  (cfg.find? (fun kv => kv.fst == key)).map (fun kv => kv.snd)

/-- One regex match attempt of `/\$\{CONFIG\.([A-Z0-9_]+)\}/` anchored at the
head of `l`: the literal head `$\x7bCONFIG.`, then a maximal nonempty run of
key characters, then `\x7d`.  Returns the captured key and the remainder after
the closing brace.  Backtracking to a shorter key run can never succeed
because any proper prefix of the maximal run is followed by a key character,
which is not the closing brace, so maximal-munch plus a single brace check is
exactly the regex semantics. -/
def matchPlaceholder (l : List Char) : Option (List Char × List Char) :=
  if startsWith placeholderHead l then
    let body := l.drop 9
    let run := body.takeWhile isKeyChar
    let rest := body.dropWhile isKeyChar
    if run.isEmpty then none
    else if rest.head? = some '\x7d' then some (run, rest.tail)
    else none
  else none

/-- The scanning loop of `String.replace` with a global regex: at each
position try to match the placeholder pattern; on a match emit the
substituted value (or fail for an unknown key, modelling the thrown
`OrchestrationError`) and continue after the match; otherwise emit one
character and advance.  Fuel-indexed structural recursion; every step
consumes at least one character, so fuel equal to the length of the input
always suffices. -/
def interpAux (cfg : List (String × String)) : Nat → List Char → Except OrchestrationError (List Char)
  | _, [] => .ok []
  | 0, _ :: _ => .ok []
  | fuel + 1, c :: cs =>
    match matchPlaceholder (c :: cs) with
    | some (run, rest) =>
      match lookupConfig cfg (String.mk run) with
      | some v =>
        match interpAux cfg fuel rest with
        | .ok t => .ok (v.data ++ t)
        | .error e => .error e
      | none => .error (unknownKeyError (String.mk run) cfg)
    | none =>
      match interpAux cfg fuel cs with
      | .ok t => .ok (c :: t)
      | .error e => .error e

/-- Embedding of `interpolateConfigPlaceholders` (orchestrator.ts lines
133-143): substring replacement of every `$\x7bCONFIG.KEY\x7d` placeholder,
failing with an `OrchestrationError` naming the valid keys when `KEY` is not
in the configuration map. -/
def interpolateConfigPlaceholders (cfg : List (String × String)) (template : String) :
    Except OrchestrationError String :=
  match interpAux cfg template.data.length template.data with
  | .ok t => .ok (String.mk t)
  | .error e => .error e

/-- The active configuration map, modelled from src/config.ts: the five keys
and their insertion order are fixed by the source object literal
(`Object.keys(CONFIG)` joined with ", " therefore lists them in this order); the
values are environment-derived and represented by sample strings, which no
claim depends on. -/
def CONFIG : List (String × String) :=
  [("ENV", "qa"), ("BASE_URL", "https://example.test"), ("USERNAME", "user"),
   ("PASSWORD", "secret"), ("OPENAI_API_KEY", "key")]

/-- One character of the whitespace class stripped by the JavaScript
`trim()`: the validation `!prompt.prompt.trim()` in `runScenario` is true
exactly when every character of the prompt is whitespace.  The embedding
covers the ASCII whitespace characters. -/
def isWSChar (c : Char) : Bool :=
  c == ' ' || c == '\t' || c == '\n' || c == '\r' || c == '\x0c' || c == '\x0b'

/-- Embedding of the `TestPrompt` record loaded from the scenario catalog. -/
structure TestPrompt where
  tag : String
  description : String
  prompt : String
  deriving DecidableEq

/-- Observable outcome of one `runScenario` call: whether it resolved to
`true` (scenario passed) and whether the generate-and-execute pipeline
(`runWithRetries`) was actually invoked for it. -/
structure ScenarioOutcome where
  passed : Bool
  executed : Bool
  deriving DecidableEq

/-- Embedding of `runScenario` (orchestrator.ts lines 151-192).  The body is
one big try/catch returning a boolean, so no error escapes: the abort
pre-check, the empty-prompt validation and the placeholder interpolation all
throw inside the try block and are converted to a `false` result by the
catch.  `raceResult` is the settled outcome of
`Promise.race([runWithRetries(...), timeoutPromise])`, supplied as a
parameter because real-time arbitration is external to this embedding;
`executed` records whether control reached that race at all. -/
def runScenarioModel (cfg : List (String × String)) (p : TestPrompt) (aborted : Bool)
    (raceResult : Except String Unit) : ScenarioOutcome :=
  if aborted then ⟨false, false⟩
  else if p.prompt.data.all isWSChar then ⟨false, false⟩
  else
    match interpolateConfigPlaceholders cfg p.prompt with
    | .error _ => ⟨false, false⟩
    | .ok _ =>
      match raceResult with
      | .ok _ => ⟨true, true⟩
      | .error _ => ⟨false, true⟩

/-- Embedding of the `RunStats` record (endTime and duration, being
wall-clock values, are not modelled). -/
structure RunStats where
  total : Nat
  passed : Nat
  failed : List String
  deriving DecidableEq

/-- Observable result of the orchestrator main loop: final statistics, the
tags for which `runScenario` was invoked (in start order), the tags whose
pipeline actually executed, and the `OrchestrationError` escaping the chunk
loop, if any. -/
structure RunResult where
  stats : RunStats
  ranTags : List String
  executedTags : List String
  abortError : Option OrchestrationError
  deriving DecidableEq

/-- Embedding of the per-chunk result aggregation loop of `main`
(orchestrator.ts lines 267-279): for each collected result, increment
`passed` or append the tag to `failed`; after appending, if
`continueOnFailure` is false, throw `OrchestrationError` with the failing
tag in the details.  On that throw the statistics mutated so far accompany
the error. -/
def foldChunkResults (continueOnFailure : Bool) :
    List (TestPrompt × Bool) → RunStats → Except (RunStats × OrchestrationError) RunStats
  | [], stats => .ok stats
  | (s, passed) :: rest, stats =>
    if passed then
      foldChunkResults continueOnFailure rest
        { stats with passed := stats.passed + 1 }
    else
      if continueOnFailure then
        foldChunkResults continueOnFailure rest
          { stats with failed := stats.failed ++ [s.tag] }
      else
        .error ({ stats with failed := stats.failed ++ [s.tag] },
          ⟨"Test run aborted due to failure", some ("Failed scenario: " ++ s.tag)⟩)

/-- Embedding of the sequential chunk loop of `main` (orchestrator.ts lines
259-280): chunks are processed strictly in order; all scenarios of a chunk
are run (`Promise.all`), then results are folded; a fold abort stops the loop
before any scenario of a later chunk starts.  The abort signal is never
triggered in this embedding (no SIGINT), so `runScenario` is called with
`aborted = false`. -/
def runChunks (cfg : List (String × String)) (race : TestPrompt → Except String Unit)
    (continueOnFailure : Bool) :
    List (List TestPrompt) → RunStats → List String → List String → RunResult
  | [], stats, ran, execd => ⟨stats, ran, execd, none⟩
  | chunk :: rest, stats, ran, execd =>
    match foldChunkResults continueOnFailure
        (chunk.map (fun s => (s, (runScenarioModel cfg s false (race s)).passed))) stats with
    | .ok stats' =>
      runChunks cfg race continueOnFailure rest stats'
        (ran ++ chunk.map (fun s => s.tag))
        (execd ++ ((chunk.filter
          (fun s => (runScenarioModel cfg s false (race s)).executed)).map (fun s => s.tag)))
    | .error (stats', e) =>
      ⟨stats', ran ++ chunk.map (fun s => s.tag),
        execd ++ ((chunk.filter
          (fun s => (runScenarioModel cfg s false (race s)).executed)).map (fun s => s.tag)),
        some e⟩

/-- Embedding of the body of `main` (orchestrator.ts lines 198-298): select
scenarios by exact tag match (or all when no filter is given), return `none`
for an empty selection (the source logs a warning and returns without
statistics), otherwise initialise the statistics and process the chunk
partition. -/
def mainRun (cfg : List (String × String)) (prompts : List TestPrompt)
    (tagToRun : Option String) (concurrency : Nat) (continueOnFailure : Bool)
    (race : TestPrompt → Except String Unit) : Option RunResult :=
  match tagToRun with
  | some t =>
    if (prompts.filter (fun p => p.tag == t)).isEmpty then none
    else
      some (runChunks cfg race continueOnFailure
        (chunksOf concurrency (prompts.filter (fun p => p.tag == t)))
        ⟨(prompts.filter (fun p => p.tag == t)).length, 0, []⟩ [] [])
  | none =>
    if prompts.isEmpty then none
    else
      some (runChunks cfg race continueOnFailure (chunksOf concurrency prompts)
        ⟨prompts.length, 0, []⟩ [] [])

/-- Process exit code of `main`: 1 when an orchestration error escaped the
chunk loop (the catch block calls `process.exit(1)`), 1 when the completed
statistics report at least one failed tag, 0 otherwise (including the
empty-selection early return). -/
def exitCode (r : Option RunResult) : Nat :=
  match r with
  | none => 0
  | some res =>
    if res.abortError.isSome then 1
    else if res.stats.failed.isEmpty then 0
    else 1

/-- The error message of the terminal throw of `runWithRetries`
(rerunHandler.ts line 99): the attempt count and the full underlying error
text; the tag and the 300-character truncation appear only in log calls. -/
def failMsg (attempts : Nat) (e : String) : String :=
  "Test failed after " ++ toString attempts ++ " attempts: " ++ e

/-- Embedding of the retry loop of `runWithRetries` (rerunHandler.ts lines
59-107): `for (let i = 1; i <= attempts; i++)` generate a fresh artifact,
execute it, return on success; on failure rethrow on the last attempt,
otherwise continue.  `gen prompt tag i` models `generateTest(prompt, tag)` as
called on attempt `i` (each attempt regenerates), `exec i artifact` models
the `execSync` test run of that artifact.  The second component of the result
lists the attempt indices at which generation was invoked.  Fuel equal to
`attempts` is exactly the iteration count of the source loop. -/
def runLoopF (gen : String → String → Nat → Except String String)
    (exec : Nat → String → Except String Unit)
    (prompt tag : String) (attempts : Nat) : Nat → Nat → Except String Unit × List Nat
  | _, 0 => (.ok (), [])
  | i, fuel + 1 =>
    if attempts < i then (.ok (), [])
    else
      match gen prompt tag i with
      | .error e =>
        if i = attempts then (.error (failMsg attempts e), [i])
        else
          ((runLoopF gen exec prompt tag attempts (i + 1) fuel).fst,
            i :: (runLoopF gen exec prompt tag attempts (i + 1) fuel).snd)
      | .ok artifact =>
        match exec i artifact with
        | .ok _ => (.ok (), [i])
        | .error e =>
          if i = attempts then (.error (failMsg attempts e), [i])
          else
            ((runLoopF gen exec prompt tag attempts (i + 1) fuel).fst,
              i :: (runLoopF gen exec prompt tag attempts (i + 1) fuel).snd)

/-- Embedding of `runWithRetries`: run the loop from attempt 1.  The `tag`
argument reaches only the generator and the log lines, never the thrown
error message. -/
def runWithRetries (gen : String → String → Nat → Except String String)
    (exec : Nat → String → Except String Unit)
    (prompt tag : String) (attempts : Nat) : Except String Unit × List Nat :=
  runLoopF gen exec prompt tag attempts 1 attempts

/-- The combined generate-then-execute step of attempt `i`, used to phrase
"the pipeline fails on every call". -/
def pipelineResult (gen : String → String → Nat → Except String String)
    (exec : Nat → String → Except String Unit)
    (prompt tag : String) (i : Nat) : Except String Unit :=
  match gen prompt tag i with
  | .error e => .error e
  | .ok artifact => exec i artifact

/-- Embedding of the `SafeActionError` class of safeActions.ts: message,
optional selector (the caller-supplied target label) and optional attempt
count; the wrapped cause and the stack trace are not modelled. -/
structure SafeActionError where
  message : String
  selector : Option String
  attempt : Option Nat
  deriving DecidableEq

/-- Embedding of the `ActionResult` record of safeActions.ts (the wall-clock
`duration` field is not modelled). -/
structure ActionResult (T : Type) where
  success : Bool
  value : Option T
  error : Option SafeActionError
  attempts : Nat
  deriving DecidableEq

/-- Embedding of the retry loop of `withRetry` (safeActions.ts lines
98-161): `for (let i = 0; i < retries; i++)` invoke the action; on success
return a success outcome with `attempts = i + 1`; on failure, if this is the
last attempt (`i === retries - 1`) return a failure outcome whose error
wraps the action name, the attempt count and the underlying message and
carries the target and attempt count as fields, otherwise sleep
`delayMs * 2 ^ i` and continue.  The second component of the `.ok` result
lists the sleeps requested between attempts, in order.  If the loop exits
without returning (only possible when `retries ≤ 0`) the source throws
`Unexpected retry loop exit`; that throw is the `.error` case.  `action i`
is the (possibly failing) awaited action of iteration `i`; the optional
`onError` callback only performs logging-style side effects in the source
and is not modelled. -/
def retryLoop {T : Type} (action : Nat → Except String T) (retries delayMs : Nat)
    (actionName : String) (target : Option String) :
    Nat → Nat → Except String (ActionResult T × List Nat)
  | _, 0 => .error "Unexpected retry loop exit"
  | i, fuel + 1 =>
    if retries ≤ i then .error "Unexpected retry loop exit"
    else
      match action i with
      | .ok v => .ok (⟨true, some v, none, i + 1⟩, [])
      | .error e =>
        if i = retries - 1 then
          .ok (⟨false, none,
            some ⟨actionName ++ " failed after " ++ toString (i + 1) ++ " attempts: " ++ e,
              target, some (i + 1)⟩, i + 1⟩, [])
        else
          match retryLoop action retries delayMs actionName target (i + 1) fuel with
          | .ok rs => .ok (rs.fst, delayMs * 2 ^ i :: rs.snd)
          | .error m => .error m

/-- Embedding of `withRetry`: run the loop from `i = 0` with fuel `retries`
(the exact iteration count of the source loop). -/
def withRetry {T : Type} (action : Nat → Except String T) (retries delayMs : Nat)
    (actionName : String) (target : Option String) :
    Except String (ActionResult T × List Nat) :=
  retryLoop action retries delayMs actionName target 0 retries

/-- Decidable equality for Except values, used only to evaluate concrete
runs of the embedded functions. -/
instance decEqExcept {e a : Type} [DecidableEq e] [DecidableEq a] : DecidableEq (Except e a) :=
  fun x y =>
    match x, y with
    | .ok v, .ok w =>
      if h : v = w then isTrue (by rw [h]) else isFalse (fun hc => h (Except.ok.inj hc))
    | .error v, .error w =>
      if h : v = w then isTrue (by rw [h]) else isFalse (fun hc => h (Except.error.inj hc))
    | .ok _, .error _ => isFalse (fun hc => Except.noConfusion hc)
    | .error _, .ok _ => isFalse (fun hc => Except.noConfusion hc)

/-- Five sample scenarios used to instantiate the chunking claim. -/
def sampleScenarios : List TestPrompt :=
  [⟨"s1", "d1", "p1"⟩, ⟨"s2", "d2", "p2"⟩, ⟨"s3", "d3", "p3"⟩,
   ⟨"s4", "d4", "p4"⟩, ⟨"s5", "d5", "p5"⟩]

/-- Concrete three-scenario catalog for the continue-on-failure claim. -/
def c5Prompts : List TestPrompt :=
  [⟨"c5-1", "d", "hello"⟩, ⟨"c5-2", "d", "hello"⟩, ⟨"c5-3", "d", "hello"⟩]

/-- Concrete race outcome that fails exactly the second scenario. -/
def c5Race : TestPrompt → Except String Unit :=
  fun p => if p.tag == "c5-2" then .error "boom" else .ok ()

/-- Concrete catalog whose first scenario references the unknown
configuration key MISSING. -/
def c4Prompts : List TestPrompt :=
  [⟨"c4-bad", "d", "go to $\x7bCONFIG.MISSING\x7d"⟩, ⟨"c4-ok", "d", "hello"⟩]

/-- Concrete catalog whose first scenario has a whitespace-only prompt. -/
def c9Prompts : List TestPrompt :=
  [⟨"c9-ws", "d", "   "⟩, ⟨"c9-ok", "d", "hello"⟩]

/-- One-scenario chunk whose scenario fails, used to instantiate the
abort claim. -/
def c5FailChunk : List TestPrompt :=
  [⟨"w1", "d", "hello"⟩]

/-- Race outcome that fails every scenario. -/
def alwaysFailRace : TestPrompt → Except String Unit :=
  fun _ => .error "boom"

/-- A list prefixed with itself satisfies the anchored match test. -/
theorem startsWith_append_self (p t : List Char) : startsWith p (p ++ t) = true := by
  induction p with
  | nil => rfl
  | cons c cs ih => simp [startsWith, ih]

/-- The join of the fuel-indexed chunk partition restores the input when the
chunk size is at least 1 and the fuel covers the input length. -/
theorem chunksOfFuel_flatten (c : Nat) (hc : 1 ≤ c) :
    ∀ (fuel : Nat) (xs : List α), xs.length ≤ fuel →
      (chunksOfFuel c fuel xs).flatten = xs := by
  intro fuel
  induction fuel with
  | zero =>
    intro xs hxs
    cases xs with
    | nil => rfl
    | cons x xs => simp at hxs
  | succ f ih =>
    intro xs hxs
    cases xs with
    | nil => rfl
    | cons x xs =>
      obtain ⟨c', rfl⟩ : ∃ c', c = c' + 1 := ⟨c - 1, by omega⟩
      have hlen : (xs.drop (c' + 1 - 1)).length ≤ f := by
        simp only [List.length_drop]
        simp only [List.length_cons] at hxs
        omega
      simp only [chunksOfFuel, List.flatten_cons, ih _ hlen]
      simp [List.take_succ_cons]

/-- Every chunk produced by the fuel-indexed partition is nonempty and no
longer than the chunk size. -/
theorem chunksOfFuel_sizes (c : Nat) (hc : 1 ≤ c) :
    ∀ (fuel : Nat) (xs : List α), xs.length ≤ fuel →
      ∀ l ∈ chunksOfFuel c fuel xs, 0 < l.length ∧ l.length ≤ c := by
  intro fuel
  induction fuel with
  | zero =>
    intro xs hxs l hl
    cases xs with
    | nil => simp [chunksOfFuel] at hl
    | cons x xs => simp at hxs
  | succ f ih =>
    intro xs hxs l hl
    cases xs with
    | nil => simp [chunksOfFuel] at hl
    | cons x xs =>
      simp only [chunksOfFuel, List.mem_cons] at hl
      rcases hl with rfl | hl
      · constructor
        · obtain ⟨c', rfl⟩ : ∃ c', c = c' + 1 := ⟨c - 1, by omega⟩
          simp [List.take_succ_cons]
        · simp [List.length_take]
      · have hlen : (xs.drop (c - 1)).length ≤ f := by
          simp only [List.length_drop]
          simp only [List.length_cons] at hxs
          omega
        exact ih _ hlen l hl

/-- Every chunk except possibly the last has length exactly the chunk size. -/
theorem chunksOfFuel_dropLast (c : Nat) (hc : 1 ≤ c) :
    ∀ (fuel : Nat) (xs : List α), xs.length ≤ fuel →
      ∀ l ∈ (chunksOfFuel c fuel xs).dropLast, l.length = c := by
  intro fuel
  induction fuel with
  | zero =>
    intro xs hxs l hl
    cases xs with
    | nil => simp [chunksOfFuel] at hl
    | cons x xs => simp at hxs
  | succ f ih =>
    intro xs hxs l hl
    cases xs with
    | nil => simp [chunksOfFuel] at hl
    | cons x xs =>
      have hlen : (xs.drop (c - 1)).length ≤ f := by
        simp only [List.length_drop]
        simp only [List.length_cons] at hxs
        omega
      simp only [chunksOfFuel] at hl
      cases ht : chunksOfFuel c f (xs.drop (c - 1)) with
      | nil => rw [ht] at hl; simp at hl
      | cons y t' =>
        rw [ht] at hl
        have hdrop_ne : xs.drop (c - 1) ≠ [] := by
          intro hnil
          rw [hnil] at ht
          simp [chunksOfFuel] at ht
        have hclen : c - 1 < xs.length := by
          by_contra hcon
          exact hdrop_ne (List.drop_eq_nil_of_le (by omega))
        simp only [List.dropLast, List.mem_cons] at hl
        rcases hl with rfl | hl
        · simp only [List.length_take, List.length_cons]
          omega
        · rw [← ht] at hl
          exact ih _ hlen l hl

/-- C1: for every scenario list and concurrency `c ≥ 1`, the orchestrator
chunk partition is a partition into consecutive chunks in original order
(join restores the list), every chunk is nonempty with at most `c` elements,
every chunk but the last has exactly `c` elements, and for `c = 2` with 5
scenarios the chunk sizes are `[2, 2, 1]`. -/
theorem chunking_partitions_in_order (c : Nat) (hc : 1 ≤ c) (xs : List α) :
    (chunksOf c xs).flatten = xs
    ∧ (∀ l ∈ chunksOf c xs, 0 < l.length ∧ l.length ≤ c)
    ∧ (∀ l ∈ (chunksOf c xs).dropLast, l.length = c)
    ∧ (chunksOf 2 sampleScenarios).map List.length = [2, 2, 1] := by
  refine ⟨chunksOfFuel_flatten c hc xs.length xs le_rfl,
    chunksOfFuel_sizes c hc xs.length xs le_rfl,
    chunksOfFuel_dropLast c hc xs.length xs le_rfl, by decide⟩

/-- Witness for C1 at `c = 2` and the 5 sample scenarios. -/
theorem chunking_partitions_in_order_witness :
    (chunksOf 2 sampleScenarios).flatten = sampleScenarios :=
  (chunking_partitions_in_order 2 (by decide) sampleScenarios).1

/-- takeWhile over an append whose first part satisfies the predicate
throughout. -/
theorem takeWhile_append_all (p : α → Bool) (k t : List α) (h : k.all p = true) :
    (k ++ t).takeWhile p = k ++ t.takeWhile p := by
  induction k with
  | nil => simp
  | cons c k' ih =>
    simp only [List.all_cons, Bool.and_eq_true] at h
    simp [List.takeWhile_cons_of_pos h.1, ih h.2]

/-- dropWhile over an append whose first part satisfies the predicate
throughout. -/
theorem dropWhile_append_all (p : α → Bool) (k t : List α) (h : k.all p = true) :
    (k ++ t).dropWhile p = t.dropWhile p := by
  induction k with
  | nil => simp
  | cons c k' ih =>
    simp only [List.all_cons, Bool.and_eq_true] at h
    simp [List.dropWhile_cons_of_pos h.1, ih h.2]

/-- dropWhile over an append whose first part contains a predicate
violation stops inside the first part. -/
theorem dropWhile_append_bad (p : α → Bool) (k t : List α) (h : k.all p = false) :
    (k ++ t).dropWhile p = k.dropWhile p ++ t := by
  induction k with
  | nil => simp at h
  | cons c k' ih =>
    by_cases hc : p c
    · have h' : k'.all p = false := by
        simp only [List.all_cons, hc, Bool.true_and] at h
        exact h
      simp [List.dropWhile_cons_of_pos hc, ih h']
    · simp [List.dropWhile_cons_of_neg hc]

/-- A list with a predicate violation has, after dropWhile, a head that
violates the predicate and belongs to the list. -/
theorem dropWhile_first_bad (p : α → Bool) (k : List α) (h : k.all p = false) :
    ∃ c r, k.dropWhile p = c :: r ∧ p c = false ∧ c ∈ k := by
  induction k with
  | nil => simp at h
  | cons c k' ih =>
    by_cases hc : p c
    · have h' : k'.all p = false := by
        simp only [List.all_cons, hc, Bool.true_and] at h
        exact h
      obtain ⟨c₀, r₀, h1, h2, h3⟩ := ih h'
      exact ⟨c₀, r₀, by simp [List.dropWhile_cons_of_pos hc, h1],
        h2, List.mem_cons_of_mem _ h3⟩
    · exact ⟨c, k', by simp [List.dropWhile_cons_of_neg hc],
        by simpa using hc, List.mem_cons_self c k'⟩

/-- No placeholder match can start at a character other than the dollar
sign. -/
theorem matchPlaceholder_none_of_head (c : Char) (cs : List Char) (h : c ≠ '$') :
    matchPlaceholder (c :: cs) = none := by
  have hb : ('$' == c) = false := by
    simp only [beq_eq_false_iff_ne, ne_eq]
    exact fun hh => h hh.symm
  simp [matchPlaceholder, placeholderHead, startsWith, hb]

/-- At a well-formed placeholder with a nonempty all-key-character key, the
match succeeds, capturing the key and the remainder after the brace. -/
theorem matchPlaceholder_valid (K suf : List Char) (hK : K ≠ [])
    (hgood : K.all isKeyChar = true) :
    matchPlaceholder (placeholderHead ++ (K ++ '\x7d' :: suf)) = some (K, suf) := by
  have h9 : (placeholderHead ++ (K ++ '\x7d' :: suf)).drop 9 = K ++ '\x7d' :: suf := by
    have h : placeholderHead.length = 9 := rfl
    rw [← h, List.drop_left]
  have hbrace : ¬ (isKeyChar '\x7d' = true) := by decide
  have htake : (K ++ '\x7d' :: suf).takeWhile isKeyChar = K := by
    rw [takeWhile_append_all _ _ _ hgood, List.takeWhile_cons_of_neg hbrace]
    simp
  have hdropw : (K ++ '\x7d' :: suf).dropWhile isKeyChar = '\x7d' :: suf := by
    rw [dropWhile_append_all _ _ _ hgood, List.dropWhile_cons_of_neg hbrace]
  have hne : K.isEmpty = false := by
    cases K with
    | nil => exact absurd rfl hK
    | cons a l => rfl
  simp [matchPlaceholder, startsWith_append_self, h9, htake, hdropw, hne]

/-- At a placeholder-shaped text whose key part contains a character outside
the key class (and no closing brace of its own), the match fails. -/
theorem matchPlaceholder_invalid (k : List Char) (hbad : k.all isKeyChar = false)
    (hbr : '\x7d' ∉ k) :
    matchPlaceholder (placeholderHead ++ (k ++ ['\x7d'])) = none := by
  have h9 : (placeholderHead ++ (k ++ ['\x7d'])).drop 9 = k ++ ['\x7d'] := by
    have h : placeholderHead.length = 9 := rfl
    rw [← h, List.drop_left]
  obtain ⟨c₀, r₀, hdw, hc₀, hmem⟩ := dropWhile_first_bad isKeyChar k hbad
  have hdropw : (k ++ ['\x7d']).dropWhile isKeyChar = c₀ :: (r₀ ++ ['\x7d']) := by
    rw [dropWhile_append_bad _ _ _ hbad, hdw]
    rfl
  have hne : c₀ ≠ '\x7d' := fun h => hbr (h ▸ hmem)
  simp [matchPlaceholder, startsWith_append_self, h9, hdropw, hne]

/-- A text containing no dollar sign scans through the interpolation loop
unchanged, with no error. -/
theorem interpAux_no_dollar (cfg : List (String × String)) :
    ∀ (l : List Char) (fuel : Nat), l.length ≤ fuel → (∀ c ∈ l, c ≠ '$') →
      interpAux cfg fuel l = .ok l := by
  intro l
  induction l with
  | nil =>
    intro fuel _ _
    cases fuel with
    | zero => rfl
    | succ f => rfl
  | cons c cs ih =>
    intro fuel hlen hd
    cases fuel with
    | zero => simp at hlen
    | succ f =>
      have hc : c ≠ '$' := hd c (List.mem_cons_self c cs)
      have hrec : interpAux cfg f cs = .ok cs := by
        refine ih f ?_ (fun x hx => hd x (List.mem_cons_of_mem _ hx))
        simp only [List.length_cons] at hlen
        omega
      simp [interpAux, matchPlaceholder_none_of_head c cs hc, hrec]

/-- Scanning a placeholder-shaped text whose key part contains a character
outside the key class leaves the text unchanged with no error: the match at
the dollar sign fails inside the key run, and no later position can start a
match. -/
theorem interp_verbatim_core (cfg : List (String × String)) (k : List Char)
    (hbad : k.all isKeyChar = false) (hd : '$' ∉ k) (hbr : '\x7d' ∉ k) :
    ∀ fuel, (placeholderHead ++ (k ++ ['\x7d'])).length ≤ fuel →
      interpAux cfg fuel (placeholderHead ++ (k ++ ['\x7d']))
        = .ok (placeholderHead ++ (k ++ ['\x7d'])) := by
  intro fuel hfuel
  have hlen : (placeholderHead ++ (k ++ ['\x7d'])).length = k.length + 10 := by
    simp only [placeholderHead, List.length_append, List.length_cons,
      List.length_nil, List.length_singleton]
    omega
  cases fuel with
  | zero => rw [hlen] at hfuel; omega
  | succ f =>
    have hmp' : matchPlaceholder
        ('$' :: '\x7b' :: 'C' :: 'O' :: 'N' :: 'F' :: 'I' :: 'G' :: '.' :: (k ++ ['\x7d'])) = none :=
      matchPlaceholder_invalid k hbad hbr
    have htl : interpAux cfg f
        ('\x7b' :: 'C' :: 'O' :: 'N' :: 'F' :: 'I' :: 'G' :: '.' :: (k ++ ['\x7d']))
        = .ok ('\x7b' :: 'C' :: 'O' :: 'N' :: 'F' :: 'I' :: 'G' :: '.' :: (k ++ ['\x7d'])) := by
      refine interpAux_no_dollar cfg _ f ?_ ?_
      · simp only [List.length_cons, List.length_append, List.length_singleton,
          List.length_nil]
        rw [hlen] at hfuel
        omega
      · intro c hc
        simp only [List.mem_cons, List.mem_append, List.mem_singleton,
          List.not_mem_nil, or_false] at hc
        rcases hc with rfl | rfl | rfl | rfl | rfl | rfl | rfl | rfl | h | rfl
        · decide
        · decide
        · decide
        · decide
        · decide
        · decide
        · decide
        · decide
        · exact fun he => hd (he ▸ h)
        · decide
    show interpAux cfg (f + 1)
        ('$' :: '\x7b' :: 'C' :: 'O' :: 'N' :: 'F' :: 'I' :: 'G' :: '.' :: (k ++ ['\x7d']))
        = .ok ('$' :: '\x7b' :: 'C' :: 'O' :: 'N' :: 'F' :: 'I' :: 'G' :: '.' :: (k ++ ['\x7d']))
    simp only [interpAux, hmp', htl]

/-- C10: placeholder resolution only recognises `$\x7bCONFIG.KEY\x7d` with
`KEY` built from uppercase letters, digits and underscores; placeholder-like
text whose key contains any other character (such as
`$\x7bCONFIG.baseUrl\x7d`) is left in the resolved prompt verbatim and raises
no error, even though the key is not a valid configuration key.  The key is
assumed to contain no dollar sign and no closing brace of its own, which is
what "placeholder-like text" means (such characters would start or close a
different token). -/
theorem invalid_key_placeholder_left_verbatim (cfg : List (String × String)) (k : List Char)
    (hbad : k.all isKeyChar = false) (hd : '$' ∉ k) (hbr : '\x7d' ∉ k) :
    interpolateConfigPlaceholders cfg (String.mk (placeholderHead ++ (k ++ ['\x7d'])))
      = .ok (String.mk (placeholderHead ++ (k ++ ['\x7d'])))
    ∧ interpolateConfigPlaceholders CONFIG "go to $\x7bCONFIG.baseUrl\x7d"
      = .ok "go to $\x7bCONFIG.baseUrl\x7d" := by
  refine ⟨?_, by decide⟩
  have hcore := interp_verbatim_core cfg k hbad hd hbr
    (placeholderHead ++ (k ++ ['\x7d'])).length le_rfl
  show (match interpAux cfg (placeholderHead ++ (k ++ ['\x7d'])).length
      (placeholderHead ++ (k ++ ['\x7d'])) with
    | .ok t => Except.ok (String.mk t)
    | .error e => Except.error e)
    = Except.ok (String.mk (placeholderHead ++ (k ++ ['\x7d'])))
  rw [hcore]

/-- Witness for C10 at the key `baseUrl`. -/
theorem invalid_key_placeholder_left_verbatim_witness :
    interpolateConfigPlaceholders CONFIG
      (String.mk (placeholderHead ++ (['b', 'a', 's', 'e', 'U', 'r', 'l'] ++ ['\x7d'])))
      = .ok (String.mk (placeholderHead ++ (['b', 'a', 's', 'e', 'U', 'r', 'l'] ++ ['\x7d']))) :=
  (invalid_key_placeholder_left_verbatim CONFIG ['b', 'a', 's', 'e', 'U', 'r', 'l']
    (by decide) (by decide) (by decide)).1

/-- Scanning a template made of a dollar-free prefix followed by a
well-formed placeholder whose key is absent from the configuration map fails
with the unknown-key error, whatever follows the placeholder. -/
theorem interp_unknown_key_core (cfg : List (String × String)) (K suf : List Char)
    (hK : K ≠ []) (hgood : K.all isKeyChar = true)
    (hmiss : lookupConfig cfg (String.mk K) = none) :
    ∀ (pre : List Char) (fuel : Nat), (∀ c ∈ pre, c ≠ '$') →
      (pre ++ (placeholderHead ++ (K ++ '\x7d' :: suf))).length ≤ fuel →
      interpAux cfg fuel (pre ++ (placeholderHead ++ (K ++ '\x7d' :: suf)))
        = .error (unknownKeyError (String.mk K) cfg) := by
  intro pre
  induction pre with
  | nil =>
    intro fuel hpre hfuel
    simp only [List.nil_append] at hfuel ⊢
    cases fuel with
    | zero =>
      exfalso
      simp only [placeholderHead, List.length_append, List.length_cons,
        List.length_nil] at hfuel
      omega
    | succ f =>
      have hmp' : matchPlaceholder
          ('$' :: '\x7b' :: 'C' :: 'O' :: 'N' :: 'F' :: 'I' :: 'G' :: '.' :: (K ++ '\x7d' :: suf))
          = some (K, suf) :=
        matchPlaceholder_valid K suf hK hgood
      show interpAux cfg (f + 1)
          ('$' :: '\x7b' :: 'C' :: 'O' :: 'N' :: 'F' :: 'I' :: 'G' :: '.' :: (K ++ '\x7d' :: suf))
          = .error (unknownKeyError (String.mk K) cfg)
      simp only [interpAux, hmp', hmiss]
  | cons c pre' ih =>
    intro fuel hpre hfuel
    have hc : c ≠ '$' := hpre c (List.mem_cons_self _ _)
    cases fuel with
    | zero => simp at hfuel
    | succ f =>
      have hrec := ih f (fun x hx => hpre x (List.mem_cons_of_mem _ hx))
        (by simp only [List.cons_append, List.length_cons] at hfuel ⊢; omega)
      simp only [List.cons_append]
      simp only [interpAux, matchPlaceholder_none_of_head c _ hc, hrec]

/-- C4 (amended): a prompt template referencing an unknown configuration key
makes the interpolation raise an `OrchestrationError` whose payload reports
the set of valid configuration keys, and this happens before the scenario
executes — but the error is caught inside `runScenario` (whose catch block
converts every thrown error into a `false` result), so the scenario is
recorded as an ordinary failure without executing and no `OrchestrationError`
escapes to fail the run. -/
theorem unknown_key_error_caught_per_scenario (cfg : List (String × String))
    (K suf : List Char) (hK : K ≠ []) (hgood : K.all isKeyChar = true)
    (hmiss : lookupConfig cfg (String.mk K) = none) :
    interpolateConfigPlaceholders cfg (String.mk (placeholderHead ++ (K ++ '\x7d' :: suf)))
      = .error (unknownKeyError (String.mk K) cfg)
    ∧ runScenarioModel CONFIG ⟨"c4-bad", "d", "go to $\x7bCONFIG.MISSING\x7d"⟩ false (.ok ())
      = ⟨false, false⟩
    ∧ unknownKeyError "MISSING" CONFIG
      = ⟨"Unknown configuration key: MISSING",
         some "Available keys: ENV, BASE_URL, USERNAME, PASSWORD, OPENAI_API_KEY"⟩ := by
  refine ⟨?_, by decide, by decide⟩
  have hcore := interp_unknown_key_core cfg K suf hK hgood hmiss []
    (placeholderHead ++ (K ++ '\x7d' :: suf)).length (by simp) (by simp)
  simp only [List.nil_append] at hcore
  show (match interpAux cfg (placeholderHead ++ (K ++ '\x7d' :: suf)).length
      (placeholderHead ++ (K ++ '\x7d' :: suf)) with
    | .ok t => Except.ok (String.mk t)
    | .error e => Except.error e)
    = Except.error (unknownKeyError (String.mk K) cfg)
  rw [hcore]

/-- Witness for C4 at the key MISSING against the configuration map of the
program. -/
theorem unknown_key_error_caught_per_scenario_witness :
    interpolateConfigPlaceholders CONFIG
      (String.mk (placeholderHead ++ (['M', 'I', 'S', 'S', 'I', 'N', 'G'] ++ '\x7d' :: [])))
      = .error (unknownKeyError (String.mk ['M', 'I', 'S', 'S', 'I', 'N', 'G']) CONFIG) :=
  (unknown_key_error_caught_per_scenario CONFIG ['M', 'I', 'S', 'S', 'I', 'N', 'G'] []
    (by decide) (by decide) (by decide)).1

/-- C4 counterexample to the claim as stated: a run containing a scenario
whose prompt references the unknown key MISSING completes with no
`OrchestrationError` escaping (`abortError = none`); the scenario is merely
recorded in the failed tags and its sibling still runs, so the orchestrator
run does not fail with an `OrchestrationError`. -/
theorem unknown_key_does_not_abort_run_counterexample :
    mainRun CONFIG c4Prompts none 1 true (fun _ => .ok ())
      = some ⟨⟨2, 1, ["c4-bad"]⟩, ["c4-bad", "c4-ok"], ["c4-ok"], none⟩ := by
  decide

/-- C9 (amended): a whitespace-only prompt makes `runScenario` record that
scenario as failed without invoking the pipeline — the thrown "Empty prompt"
error is caught by the same per-scenario catch block — while sibling
scenarios still execute; the run completes normally and the process exits
with code 1 through the ordinary failed-scenarios path, not through a
fail-fast validation error. -/
theorem empty_prompt_per_scenario_failure (cfg : List (String × String))
    (p : TestPrompt) (ab : Bool) (r : Except String Unit)
    (hempty : p.prompt.data.all isWSChar = true) :
    runScenarioModel cfg p ab r = ⟨false, false⟩
    ∧ mainRun CONFIG c9Prompts none 2 true (fun _ => .ok ())
      = some ⟨⟨2, 1, ["c9-ws"]⟩, ["c9-ws", "c9-ok"], ["c9-ok"], none⟩
    ∧ exitCode (mainRun CONFIG c9Prompts none 2 true (fun _ => .ok ())) = 1 := by
  refine ⟨?_, by decide, by decide⟩
  cases ab with
  | true => simp [runScenarioModel]
  | false => simp [runScenarioModel, hempty]

/-- Witness for C9 at a three-space prompt. -/
theorem empty_prompt_per_scenario_failure_witness :
    runScenarioModel CONFIG ⟨"c9-ws", "d", "   "⟩ false (.ok ()) = ⟨false, false⟩ :=
  (empty_prompt_per_scenario_failure CONFIG ⟨"c9-ws", "d", "   "⟩ false (.ok ())
    (by decide)).1

/-- C9 counterexample to the claim as stated: in a run whose first scenario
has a whitespace-only prompt, no error escapes the chunk loop
(`abortError = none`), the sibling scenario executes, and the failure shows
up as an ordinary per-scenario failed tag — so the run does not fail fast
before any scenario executes. -/
theorem empty_prompt_not_fail_fast_counterexample :
    (mainRun CONFIG c9Prompts none 2 true (fun _ => .ok ())).map RunResult.abortError
      = some none
    ∧ (mainRun CONFIG c9Prompts none 2 true (fun _ => .ok ())).map RunResult.executedTags
      = some ["c9-ok"]
    ∧ (mainRun CONFIG c9Prompts none 2 true (fun _ => .ok ())).map
        (fun r => r.stats.failed) = some ["c9-ws"] := by
  exact ⟨by decide, by decide, by decide⟩

/-- With continue-on-failure disabled, a chunk result list containing a
failure makes the aggregation loop abort with an error. -/
theorem foldChunkResults_isError (l : List (TestPrompt × Bool)) :
    ∀ stats, (∃ p ∈ l, p.snd = false) →
      ∃ st e, foldChunkResults false l stats = .error (st, e) := by
  induction l with
  | nil => intro stats h; simp at h
  | cons a rest ih =>
    intro stats h
    obtain ⟨s, b⟩ := a
    cases b with
    | true =>
      have h' : ∃ p ∈ rest, p.snd = false := by
        rcases h with ⟨p, hp, hps⟩
        rcases List.mem_cons.mp hp with rfl | hmem
        · simp at hps
        · exact ⟨p, hmem, hps⟩
      obtain ⟨st, e, he⟩ := ih { stats with passed := stats.passed + 1 } h'
      exact ⟨st, e, by simp [foldChunkResults, he]⟩
    | false =>
      exact ⟨{ stats with failed := stats.failed ++ [s.tag] },
        ⟨"Test run aborted due to failure", some ("Failed scenario: " ++ s.tag)⟩,
        by simp [foldChunkResults]⟩

/-- C5: when `continueOnFailure` is false and some scenario of a chunk
fails, the chunk loop result is independent of the remaining chunks (no
scenario of a later chunk is started) and carries an abort error; for the
concrete run of 3 scenarios with concurrency 1 whose 2nd scenario fails,
the preserved statistics report `passed = 1` with the failing tag recorded,
the 3rd scenario is never started and the raised `OrchestrationError`
carries the failing tag. -/
theorem abort_on_failure_stops_later_chunks (cfg : List (String × String))
    (race : TestPrompt → Except String Unit) (chunk : List TestPrompt)
    (rest rest' : List (List TestPrompt)) (stats : RunStats) (ran execd : List String)
    (hfail : ∃ s ∈ chunk, (runScenarioModel cfg s false (race s)).passed = false) :
    runChunks cfg race false (chunk :: rest) stats ran execd
      = runChunks cfg race false (chunk :: rest') stats ran execd
    ∧ (runChunks cfg race false (chunk :: rest) stats ran execd).abortError.isSome = true
    ∧ mainRun [] c5Prompts none 1 false c5Race
      = some ⟨⟨3, 1, ["c5-2"]⟩, ["c5-1", "c5-2"], ["c5-1", "c5-2"],
          some ⟨"Test run aborted due to failure", some "Failed scenario: c5-2"⟩⟩ := by
  have hfold : ∃ st e, foldChunkResults false
      (chunk.map (fun s => (s, (runScenarioModel cfg s false (race s)).passed))) stats
      = .error (st, e) := by
    apply foldChunkResults_isError
    rcases hfail with ⟨s, hs, hps⟩
    exact ⟨(s, (runScenarioModel cfg s false (race s)).passed),
      List.mem_map_of_mem _ hs, hps⟩
  obtain ⟨st, e, he⟩ := hfold
  refine ⟨?_, ?_, by decide⟩
  · simp [runChunks, he]
  · simp [runChunks, he]

/-- Witness for C5: with a failing single-scenario chunk the result does not
depend on whether a further chunk follows. -/
theorem abort_on_failure_stops_later_chunks_witness :
    runChunks [] alwaysFailRace false (c5FailChunk :: [[⟨"w2", "d", "hello"⟩]])
        ⟨2, 0, []⟩ [] []
      = runChunks [] alwaysFailRace false (c5FailChunk :: []) ⟨2, 0, []⟩ [] [] :=
  (abort_on_failure_stops_later_chunks [] alwaysFailRace c5FailChunk
    [[⟨"w2", "d", "hello"⟩]] [] ⟨2, 0, []⟩ [] []
    ⟨⟨"w1", "d", "hello"⟩, by decide, by decide⟩).1

/-- Aggregation that completes without an abort adds exactly one outcome per
result and leaves the total untouched. -/
theorem foldChunkResults_ok_sum (cof : Bool) :
    ∀ (l : List (TestPrompt × Bool)) (stats stats' : RunStats),
      foldChunkResults cof l stats = .ok stats' →
      stats'.passed + stats'.failed.length
          = stats.passed + stats.failed.length + l.length
      ∧ stats'.total = stats.total := by
  intro l
  induction l with
  | nil =>
    intro stats stats' h
    simp only [foldChunkResults] at h
    cases h
    simp
  | cons a rest ih =>
    intro stats stats' h
    obtain ⟨s, b⟩ := a
    cases b with
    | true =>
      simp only [foldChunkResults, if_true] at h
      obtain ⟨h1, h2⟩ := ih _ _ h
      simp only [List.length_cons]
      simp at h1 h2
      exact ⟨by omega, h2⟩
    | false =>
      cases cof with
      | true =>
        simp only [foldChunkResults, if_false, if_true] at h
        obtain ⟨h1, h2⟩ := ih _ _ h
        simp only [List.length_cons]
        simp [List.length_append] at h1 h2
        exact ⟨by omega, h2⟩
      | false =>
        simp only [foldChunkResults, if_false] at h
        cases h

/-- A chunk-loop run ending without an abort error counts exactly one
outcome per scenario of every processed chunk, and never changes the
total. -/
theorem runChunks_complete (cfg : List (String × String))
    (race : TestPrompt → Except String Unit) (cof : Bool) :
    ∀ (chunks : List (List TestPrompt)) (stats : RunStats) (ran execd : List String),
      (runChunks cfg race cof chunks stats ran execd).abortError = none →
      (runChunks cfg race cof chunks stats ran execd).stats.passed
          + (runChunks cfg race cof chunks stats ran execd).stats.failed.length
        = stats.passed + stats.failed.length + (chunks.map List.length).sum
      ∧ (runChunks cfg race cof chunks stats ran execd).stats.total = stats.total := by
  intro chunks
  induction chunks with
  | nil => intro stats ran execd h; simp [runChunks]
  | cons chunk rest ih =>
    intro stats ran execd h
    cases hfold : foldChunkResults cof
        (chunk.map (fun s => (s, (runScenarioModel cfg s false (race s)).passed))) stats with
    | ok stats' =>
      simp only [runChunks, hfold] at h ⊢
      obtain ⟨h1, h2⟩ := ih stats' _ _ h
      obtain ⟨g1, g2⟩ := foldChunkResults_ok_sum cof _ stats stats' hfold
      rw [List.length_map] at g1
      refine ⟨?_, by rw [h2, g2]⟩
      rw [h1, g1]
      simp only [List.map_cons, List.sum_cons]
      omega
    | error pr =>
      exfalso
      obtain ⟨stats', e⟩ := pr
      simp only [runChunks, hfold] at h
      exact Option.some_ne_none e h

/-- C8: for every completed run (no abort error escaped the chunk loop) with
concurrency at least 1, the final statistics satisfy
`passed + failed.length = total`: each selected scenario contributes exactly
one outcome. -/
theorem stats_sum_invariant (cfg : List (String × String)) (prompts : List TestPrompt)
    (tagToRun : Option String) (c : Nat) (cof : Bool)
    (race : TestPrompt → Except String Unit) (hc : 1 ≤ c) (r : RunResult)
    (hr : mainRun cfg prompts tagToRun c cof race = some r)
    (hdone : r.abortError = none) :
    r.stats.passed + r.stats.failed.length = r.stats.total := by
  have key : ∀ sel : List TestPrompt,
      runChunks cfg race cof (chunksOf c sel) ⟨sel.length, 0, []⟩ [] [] = r →
      r.stats.passed + r.stats.failed.length = r.stats.total := by
    intro sel hsel
    have hab : (runChunks cfg race cof (chunksOf c sel) ⟨sel.length, 0, []⟩ [] []).abortError
        = none := by rw [hsel]; exact hdone
    obtain ⟨h1, h2⟩ := runChunks_complete cfg race cof (chunksOf c sel)
      ⟨sel.length, 0, []⟩ [] [] hab
    have hsum : ((chunksOf c sel).map List.length).sum = sel.length := by
      have hj := congrArg List.length (chunksOfFuel_flatten c hc sel.length sel le_rfl)
      rw [List.length_flatten] at hj
      exact hj
    rw [hsel] at h1 h2
    simp only at h1 h2
    rw [h1, hsum, h2]
    simp
  cases tagToRun with
  | some t =>
    simp only [mainRun] at hr
    split at hr
    · exact Option.noConfusion hr
    · exact key _ (Option.some.inj hr)
  | none =>
    simp only [mainRun] at hr
    split at hr
    · exact Option.noConfusion hr
    · exact key _ (Option.some.inj hr)

/-- Witness for C8 at a completed all-pass run of the 5 sample scenarios
with concurrency 2. -/
theorem stats_sum_invariant_witness :
    (⟨⟨5, 5, []⟩, ["s1", "s2", "s3", "s4", "s5"], ["s1", "s2", "s3", "s4", "s5"],
        none⟩ : RunResult).stats.passed
      + (⟨⟨5, 5, []⟩, ["s1", "s2", "s3", "s4", "s5"], ["s1", "s2", "s3", "s4", "s5"],
        none⟩ : RunResult).stats.failed.length
      = (⟨⟨5, 5, []⟩, ["s1", "s2", "s3", "s4", "s5"], ["s1", "s2", "s3", "s4", "s5"],
        none⟩ : RunResult).stats.total :=
  stats_sum_invariant [] sampleScenarios none 2 true (fun _ => .ok ()) (by decide)
    ⟨⟨5, 5, []⟩, ["s1", "s2", "s3", "s4", "s5"], ["s1", "s2", "s3", "s4", "s5"], none⟩
    (by decide) (by decide)

/-- One-step unfolding of the retry loop of `runWithRetries` at positive
fuel (the loop-iteration case). -/
theorem runLoopF_succ (gen : String → String → Nat → Except String String)
    (exec : Nat → String → Except String Unit) (prompt tag : String)
    (attempts i fuel : Nat) :
    runLoopF gen exec prompt tag attempts i (fuel + 1)
      = if attempts < i then (.ok (), [])
        else match gen prompt tag i with
          | .error e =>
            if i = attempts then (.error (failMsg attempts e), [i])
            else ((runLoopF gen exec prompt tag attempts (i + 1) fuel).fst,
              i :: (runLoopF gen exec prompt tag attempts (i + 1) fuel).snd)
          | .ok artifact =>
            match exec i artifact with
            | .ok _ => (.ok (), [i])
            | .error e =>
              if i = attempts then (.error (failMsg attempts e), [i])
              else ((runLoopF gen exec prompt tag attempts (i + 1) fuel).fst,
                i :: (runLoopF gen exec prompt tag attempts (i + 1) fuel).snd) := rfl

/-- When every generate-then-execute attempt fails, the retry loop of
`runWithRetries` performs every remaining attempt (invoking generation at
each of them) and fails with the terminal message built from the total
attempt count and the final underlying error text. -/
theorem runLoopF_fail (gen : String → String → Nat → Except String String)
    (exec : Nat → String → Except String Unit) (prompt tag : String)
    (attempts : Nat) (errOf : Nat → String)
    (hfail : ∀ j, pipelineResult gen exec prompt tag j = .error (errOf j)) :
    ∀ (f i : Nat), 1 ≤ i → i + f = attempts →
      runLoopF gen exec prompt tag attempts i (f + 1)
        = (.error (failMsg attempts (errOf attempts)), List.range' i (f + 1)) := by
  intro f
  induction f with
  | zero =>
    intro i h1 h2
    have hia : i = attempts := by omega
    subst hia
    have hne : ¬ i < i := by omega
    have hp := hfail i
    cases hg : gen prompt tag i with
    | error e =>
      simp only [pipelineResult, hg] at hp
      injection hp with he
      simp [runLoopF, hne, hg, he, List.range']
    | ok a =>
      simp only [pipelineResult, hg] at hp
      simp [runLoopF, hne, hg, hp, List.range']
  | succ f ihf =>
    intro i h1 h2
    have hne : ¬ attempts < i := by omega
    have hne2 : ¬ i = attempts := by omega
    have hrec := ihf (i + 1) (by omega) (by omega)
    have hp := hfail i
    rw [runLoopF_succ, hrec]
    cases hg : gen prompt tag i with
    | error e =>
      simp [hg, if_neg hne, if_neg hne2, List.range'_succ]
    | ok a =>
      simp only [pipelineResult, hg] at hp
      simp [hg, hp, if_neg hne, if_neg hne2, List.range'_succ]

/-- C2 (amended): for `attempts = N ≥ 1` and a generate-then-execute
pipeline failing on every call, `runWithRetries` invokes the pipeline
exactly N times — generation is invoked at each attempt 1..N, never N-1 or
N+1 times — and then fails with an error combining the attempt count and
the full underlying error text of the final attempt.  The tag and the
300-character truncation appear only in the log payloads, not in the thrown
error. -/
theorem runWithRetries_exhausts_attempts
    (gen : String → String → Nat → Except String String)
    (exec : Nat → String → Except String Unit) (prompt tag : String)
    (N : Nat) (hN : 1 ≤ N) (errOf : Nat → String)
    (hfail : ∀ j, pipelineResult gen exec prompt tag j = .error (errOf j)) :
    runWithRetries gen exec prompt tag N
      = (.error (failMsg N (errOf N)), List.range' 1 N)
    ∧ (List.range' 1 N).length = N := by
  constructor
  · have h := runLoopF_fail gen exec prompt tag N errOf hfail (N - 1) 1 le_rfl (by omega)
    rw [show N - 1 + 1 = N from by omega] at h
    exact h
  · simp

/-- Witness for C2 at 3 attempts of a pipeline whose execution always
fails. -/
theorem runWithRetries_exhausts_attempts_witness :
    runWithRetries (fun _ _ _ => .ok "artifact") (fun _ _ => .error "boom") "p" "login" 3
      = (.error (failMsg 3 "boom"), List.range' 1 3) :=
  (runWithRetries_exhausts_attempts (fun _ _ _ => .ok "artifact")
    (fun _ _ => .error "boom") "p" "login" 3 (by decide) (fun _ => "boom")
    (fun _ => rfl)).1

set_option maxRecDepth 10000 in
/-- C2 counterexample to the claim as stated: in a failing 2-attempt run
with tag `login`, the thrown error message is exactly
`Test failed after 2 attempts: boom` — the tag does not occur in it — and a
301-character underlying error is embedded in the thrown message in full,
with no 300-character truncation. -/
theorem retry_error_omits_tag_counterexample :
    (runWithRetries (fun _ _ _ => .ok "artifact") (fun _ _ => .error "boom")
        "p" "login" 2).fst
      = .error "Test failed after 2 attempts: boom"
    ∧ containsSub "login".data "Test failed after 2 attempts: boom".data = false
    ∧ (runWithRetries (fun _ _ _ => .ok "artifact")
        (fun _ _ => .error (String.mk (List.replicate 301 'x'))) "p" "login" 1).fst
      = .error ("Test failed after 1 attempts: " ++ String.mk (List.replicate 301 'x'))
    ∧ (String.mk (List.replicate 301 'x')).length = 301 := by
  refine ⟨by decide, by decide, by decide, by decide⟩

/-- One-step unfolding of the retry loop of `withRetry` at positive fuel
(the loop-iteration case). -/
theorem retryLoop_succ {T : Type} (action : Nat → Except String T) (retries delayMs : Nat)
    (actionName : String) (target : Option String) (i fuel : Nat) :
    retryLoop action retries delayMs actionName target i (fuel + 1)
      = if retries ≤ i then .error "Unexpected retry loop exit"
        else match action i with
          | .ok v => .ok (⟨true, some v, none, i + 1⟩, [])
          | .error e =>
            if i = retries - 1 then
              .ok (⟨false, none,
                some ⟨actionName ++ " failed after " ++ toString (i + 1) ++ " attempts: " ++ e,
                  target, some (i + 1)⟩, i + 1⟩, [])
            else
              match retryLoop action retries delayMs actionName target (i + 1) fuel with
              | .ok rs => .ok (rs.fst, delayMs * 2 ^ i :: rs.snd)
              | .error m => .error m := rfl

/-- When every action attempt fails, the retry loop of `withRetry` returns a
failure outcome (never the loop-exit throw): the outcome has the full
attempt count, its error wraps the action name, the attempt count, the final
underlying message and the target, and exactly one exponential-backoff sleep
is requested between consecutive attempts. -/
theorem retryLoop_fail {T : Type} (action : Nat → Except String T) (R d : Nat)
    (name : String) (tgt : Option String) (e : Nat → String)
    (hfail : ∀ j, action j = .error (e j)) :
    ∀ (f i : Nat), i + f + 1 = R →
      retryLoop action R d name tgt i (f + 1)
        = .ok (⟨false, none,
            some ⟨name ++ " failed after " ++ toString R ++ " attempts: " ++ e (R - 1),
              tgt, some R⟩, R⟩,
          (List.range' i f).map (fun k => d * 2 ^ k)) := by
  intro f
  induction f with
  | zero =>
    intro i hi
    have hR : 1 ≤ R := by omega
    have hia : i = R - 1 := by omega
    subst hia
    have h1 : ¬ R ≤ R - 1 := by omega
    have h4 : R - 1 + 1 = R := by omega
    rw [retryLoop_succ, if_neg h1, hfail (R - 1)]
    simp [h4, List.range']
  | succ f ihf =>
    intro i hi
    have h1 : ¬ R ≤ i := by omega
    have h2 : ¬ i = R - 1 := by omega
    have hrec := ihf (i + 1) (by omega)
    rw [retryLoop_succ, if_neg h1, hfail i]
    simp [hrec, h2, List.range'_succ]

/-- For any action, the retry loop started strictly inside its bounds
returns an outcome and never reaches the loop-exit throw. -/
theorem retryLoop_ok {T : Type} (action : Nat → Except String T) (R d : Nat)
    (name : String) (tgt : Option String) :
    ∀ (f i : Nat), i + f = R → i < R →
      ∃ out, retryLoop action R d name tgt i f = .ok out := by
  intro f
  induction f with
  | zero =>
    intro i h1 h2
    exfalso
    omega
  | succ f ihf =>
    intro i h1 h2
    have hn : ¬ R ≤ i := by omega
    cases ha : action i with
    | ok v =>
      refine ⟨(⟨true, some v, none, i + 1⟩, []), ?_⟩
      rw [retryLoop_succ, if_neg hn, ha]
    | error e =>
      by_cases hl : i = R - 1
      · refine ⟨(⟨false, none,
          some ⟨name ++ " failed after " ++ toString (i + 1) ++ " attempts: " ++ e,
            tgt, some (i + 1)⟩, i + 1⟩, []), ?_⟩
        rw [retryLoop_succ, if_neg hn, ha]
        simp [hl]
      · obtain ⟨out, hout⟩ := ihf (i + 1) (by omega) (by omega)
        refine ⟨(out.fst, d * 2 ^ i :: out.snd), ?_⟩
        rw [retryLoop_succ, if_neg hn, ha]
        simp [hl, hout]

/-- C3: for `retries = R ≥ 1`, `delayMs = d` and an action failing on every
attempt, the sleep requested between attempt k and attempt k+1 (for
1 ≤ k < R) is exactly `d * 2 ^ (k - 1)` milliseconds — exponential backoff
with zero-indexed exponent, no jitter — and the returned outcome has
`success = false` and `attempts = R`. -/
theorem backoff_doubles_and_attempts_eq_retries {T : Type} (R d : Nat) (hR : 1 ≤ R)
    (name : String) (tgt : Option String) (action : Nat → Except String T)
    (e : Nat → String) (hfail : ∀ j, action j = .error (e j)) :
    withRetry action R d name tgt
      = .ok (⟨false, none,
          some ⟨name ++ " failed after " ++ toString R ++ " attempts: " ++ e (R - 1),
            tgt, some R⟩, R⟩,
        (List.range (R - 1)).map (fun k => d * 2 ^ k))
    ∧ ∀ k, 1 ≤ k → k < R →
        ((List.range (R - 1)).map (fun k => d * 2 ^ k))[k - 1]? = some (d * 2 ^ (k - 1)) := by
  constructor
  · have h := retryLoop_fail action R d name tgt e hfail (R - 1) 0 (by omega)
    rw [show R - 1 + 1 = R from by omega] at h
    rw [List.range_eq_range']
    exact h
  · intro k hk1 hk2
    rw [List.getElem?_map, List.getElem?_range (by omega)]
    rfl

/-- Witness for C3 at `retries = 3`, `delayMs = 100`: the sleeps are 100 and
200, the outcome has `attempts = 3`. -/
theorem backoff_doubles_and_attempts_eq_retries_witness :
    withRetry (fun _ : Nat => (.error "fail" : Except String Unit)) 3 100 "Click" (some "#btn")
      = .ok (⟨false, none,
          some ⟨"Click failed after 3 attempts: fail", some "#btn", some 3⟩, 3⟩,
        [100, 200]) := by
  have h := (backoff_doubles_and_attempts_eq_retries 3 100 (by decide) "Click" (some "#btn")
    (fun _ : Nat => (.error "fail" : Except String Unit)) (fun _ => "fail")
    (fun _ => rfl)).1
  rw [h]
  decide

/-- C7: for every `retries ≥ 1`, `withRetry` never throws when the action
itself fails — every action yields an `.ok` outcome object, so the
`Unexpected retry loop exit` throw after the loop is unreachable — and on
terminal failure the outcome error wraps the final underlying failure
message, the caller-supplied target label, and the attempt count reached. -/
theorem withRetry_never_throws {T : Type} (R d : Nat) (hR : 1 ≤ R)
    (name target : String) :
    (∀ action : Nat → Except String T,
      ∃ out, withRetry action R d name (some target) = .ok out)
    ∧ ∀ (action : Nat → Except String T) (e : Nat → String),
        (∀ j, action j = .error (e j)) →
        withRetry action R d name (some target)
          = .ok (⟨false, none,
              some ⟨name ++ " failed after " ++ toString R ++ " attempts: " ++ e (R - 1),
                some target, some R⟩, R⟩,
            (List.range' 0 (R - 1)).map (fun k => d * 2 ^ k)) := by
  constructor
  · intro action
    exact retryLoop_ok action R d name (some target) R 0 (by omega) (by omega)
  · intro action e hfail
    have h := retryLoop_fail action R d name (some target) e hfail (R - 1) 0 (by omega)
    rw [show R - 1 + 1 = R from by omega] at h
    exact h

/-- Witness for C7 at 2 retries of an always-failing unit action. -/
theorem withRetry_never_throws_witness :
    ∃ out, withRetry (fun _ : Nat => (.error "x" : Except String Unit)) 2 5 "Fill"
      (some "#name") = .ok out :=
  (withRetry_never_throws 2 5 (by decide) "Fill" "#name").1 (fun _ => .error "x")
